import Mathlib

set_option maxRecDepth 100000

/-!
Verification of the JTAG/SVF FPGA loader (TAP state machine, SVF parser,
USB-Blaster and MPSSE wire adapters, Xilinx 7-series programmer).

Each definition is a shallow embedding of the corresponding JavaScript
function; byte values are modelled as `Nat` (always < 256 in the source),
bit vectors as `List Nat` of 0/1 bits, and byte arrays as `List Nat`.
JavaScript out-of-range array reads (which yield `undefined`, coerced to 0
by the bitwise operators used in the source) are modelled with `List.getD`.
-/

/-- The 16 TAP states, as named in `JTAGStateMachine.stateTransitions`. -/
inductive TapState where
  | RESET | IDLE
  | DRSELECT | DRCAPTURE | DRSHIFT | DREXIT1 | DRPAUSE | DREXIT2 | DRUPDATE
  | IRSELECT | IRCAPTURE | IRSHIFT | IREXIT1 | IRPAUSE | IREXIT2 | IRUPDATE
  deriving DecidableEq, BEq, Repr, Fintype

namespace JTAGStateMachine

open TapState

/-- The transition table `this.stateTransitions`, keyed by (state, tms).
Lookup of a key other than 0/1 yields `undefined` in the source, hence
`none` here. -/
def stateTransitions (s : TapState) (tms : Nat) : Option TapState :=
  match s, tms with
  | RESET, 0 => some IDLE
  | RESET, 1 => some RESET
  | IDLE, 0 => some IDLE
  | IDLE, 1 => some DRSELECT
  | DRSELECT, 0 => some DRCAPTURE
  | DRSELECT, 1 => some IRSELECT
  | DRCAPTURE, 0 => some DRSHIFT
  | DRCAPTURE, 1 => some DREXIT1
  | DRSHIFT, 0 => some DRSHIFT
  | DRSHIFT, 1 => some DREXIT1
  | DREXIT1, 0 => some DRPAUSE
  | DREXIT1, 1 => some DRUPDATE
  | DRPAUSE, 0 => some DRPAUSE
  | DRPAUSE, 1 => some DREXIT2
  | DREXIT2, 0 => some DRSHIFT
  | DREXIT2, 1 => some DRUPDATE
  | DRUPDATE, 0 => some IDLE
  | DRUPDATE, 1 => some DRSELECT
  | IRSELECT, 0 => some IRCAPTURE
  | IRSELECT, 1 => some RESET
  | IRCAPTURE, 0 => some IRSHIFT
  | IRCAPTURE, 1 => some IREXIT1
  | IRSHIFT, 0 => some IRSHIFT
  | IRSHIFT, 1 => some IREXIT1
  | IREXIT1, 0 => some IRPAUSE
  | IREXIT1, 1 => some IRUPDATE
  | IRPAUSE, 0 => some IRPAUSE
  | IRPAUSE, 1 => some IREXIT2
  | IREXIT2, 0 => some IRSHIFT
  | IREXIT2, 1 => some IRUPDATE
  | IRUPDATE, 0 => some IDLE
  | IRUPDATE, 1 => some DRSELECT
  | _, _ => none

/-- `applyTMSSequence`: walk the table over a TMS bit list, leaving the
state unchanged when the table lookup is undefined. -/
def applyTMSSequence (s : TapState) (tmsArray : List Nat) : TapState :=
  tmsArray.foldl (fun st tms => (stateTransitions st tms).getD st) s

/-- Inner `for (const tms of [0, 1])` loop of `findStatePath`: try each TMS
value in order, threading the visited set and the FIFO queue; returns a
found path as soon as the expanded state equals the target. -/
def bfsScan (target state : TapState) (path : List Nat) :
    List Nat → List TapState → List (TapState × List Nat) →
    Option (List Nat) × List TapState × List (TapState × List Nat)
  | [], visited, queue => (none, visited, queue)
  | tms :: more, visited, queue =>
      match stateTransitions state tms with
      | none => bfsScan target state path more visited queue
      | some nextState =>
          if visited.contains nextState then
            bfsScan target state path more visited queue
          else
            let nextPath := path ++ [tms]
            if nextState = target then (some nextPath, visited, queue)
            else
              bfsScan target state path more (visited ++ [nextState])
                (queue ++ [(nextState, nextPath)])

/-- Outer `while (queue.length > 0)` loop of `findStatePath`.  The fuel
bounds the number of dequeues; every state enters the queue at most once,
so fuel 64 can never be exhausted on the 16-state graph. -/
def bfsLoop (target : TapState) :
    Nat → List (TapState × List Nat) → List TapState → List Nat
  | 0, _, _ => []
  | _ + 1, [], _ => []
  | fuel + 1, (state, path) :: rest, visited =>
      match bfsScan target state path [0, 1] visited rest with
      | (some found, _, _) => found
      | (none, visited2, queue2) => bfsLoop target fuel queue2 visited2

/-- `JTAGStateMachine.findStatePath(from, to)`: breadth-first search over
the transition graph, returning `[]` when the two states coincide. -/
def findStatePath (s t : TapState) : List Nat :=
  if s = t then [] else bfsLoop t 64 [(s, [])] [s]

end JTAGStateMachine

namespace TapSpec

open JTAGStateMachine

/-- Deterministic successor used by the specification-side definitions:
for tms in 0/1 this is exactly the transition table. -/
def tmsStep (s : TapState) (b : Nat) : TapState :=
  (stateTransitions s b).getD s

/-- States reachable from a set in at most `n` TMS steps. -/
def reachSet : Nat → List TapState → List TapState
  | 0, s => s
  | n + 1, s =>
      ((reachSet n s).map (fun u => tmsStep u 0) ++
       (reachSet n s).map (fun u => tmsStep u 1) ++ reachSet n s).dedup

/-- Graph-shortest distance between two TAP states: the least `n` with
`t` reachable from `s` in at most `n` steps (17 = unreachable, never hit
on this strongly connected 16-state graph). -/
def dist (s t : TapState) : Nat :=
  match (List.range 17).find? (fun n => (reachSet n [s]).contains t) with
  | some n => n
  | none => 17

/-- All TMS bit sequences of length `n`, produced in lexicographic order
with 0 before 1. -/
def allPaths : Nat → List (List Nat)
  | 0 => [[]]
  | n + 1 => (allPaths n).flatMap (fun p => [p ++ [0], p ++ [1]])

/-- The lexicographically least (0 preferred over 1) TMS sequence of
shortest length driving the TAP from `s` to `t`. -/
def minLexShortestPath (s t : TapState) : List Nat :=
  ((allPaths (dist s t)).find? (fun p => applyTMSSequence s p == t)).getD []

end TapSpec

namespace JTAGStateMachine

/-- An SVF command record as produced by the parser and consumed by
`executeCommand` (the fields relevant to the claims; `tdo`, `mask` and
`smask` ride along for SIR/SDR). -/
inductive SvfCmd where
  | STATE (states : List TapState)
  | SIR (length : Nat) (tdi : Option (List Nat)) (tdo : Option (List Nat))
      (mask : Option (List Nat)) (smask : Option (List Nat))
  | SDR (length : Nat) (tdi : Option (List Nat)) (tdo : Option (List Nat))
      (mask : Option (List Nat)) (smask : Option (List Nat))
  | HIR (length : Nat) (tdi : Option (List Nat))
  | TIR (length : Nat) (tdi : Option (List Nat))
  | HDR (length : Nat) (tdi : Option (List Nat))
  | TDR (length : Nat) (tdi : Option (List Nat))
  | ENDIR (state : Option TapState)
  | ENDDR (state : Option TapState)
  deriving DecidableEq, Repr

/-- One call into the USB adapter, as issued by the state machine. -/
inductive WireOp where
  | shiftBitsOp (tdi : List Nat) (tms : List Nat) (capture : Bool)
  | shiftBytesOp (tdi : List Nat) (length : Nat)
  deriving DecidableEq, Repr

/-- The mutable fields of `JTAGStateMachine` touched by the claims:
the tracked TAP state, the two end states, and the stored
header/trailer commands. -/
structure Machine where
  currentState : TapState
  endDRState : TapState
  endIRState : TapState
  hir : Option SvfCmd
  tir : Option SvfCmd
  hdr : Option SvfCmd
  tdr : Option SvfCmd
  deriving DecidableEq, Repr

/-- The constructor state: `currentState = RESET`, both end states
`IDLE`, no header/trailer installed. -/
def Machine.init : Machine :=
  ⟨.RESET, .IDLE, .IDLE, none, none, none, none⟩

/-- `bytesToBits`: expand `length` bits from a byte array, LSB-first
within each byte. -/
def bytesToBits (bytes : List Nat) (length : Nat) : List Nat :=
  (List.range length).map (fun i => bytes.getD (i / 8) 0 / 2 ^ (i % 8) % 2)

/-- `moveToState`: emit the BFS path as one `shiftBits` transfer (TDI all
zero, no capture) and track the state with `applyTMSSequence`; no-op when
the path is empty. -/
def moveToState (m : Machine) (targetState : TapState) : Machine × List WireOp :=
  let path := findStatePath m.currentState targetState
  if path.length = 0 then (m, [])
  else
    ({ m with currentState := applyTMSSequence m.currentState path },
     [.shiftBitsOp (List.replicate path.length 0) path false])

/-- `shiftData(tdi, length, capture)`: for large uncaptured transfers
(`length > 1000`) hand the bytes to `shiftBytes` and set the state to the
EXIT1 state directly; otherwise emit a bit transfer with TMS=0 on all
bits but the last. -/
def shiftData (m : Machine) (tdi : List Nat) (length : Nat) (capture : Bool) :
    Machine × List WireOp :=
  if length = 0 then (m, [])
  else if length > 1000 ∧ capture = false then
    ({ m with currentState :=
        if m.currentState = .DRSHIFT then .DREXIT1 else .IREXIT1 },
     [.shiftBytesOp tdi length])
  else
    let tmsArray := List.replicate (length - 1) 0 ++ [1]
    ({ m with currentState := applyTMSSequence m.currentState tmsArray },
     [.shiftBitsOp (bytesToBits tdi length) tmsArray capture])

/-- `shiftIR(cmd)`: move to IRSHIFT, shift the payload when present
(capture defaulted to false), then move to the configured `endIRState`. -/
def shiftIR (m : Machine) (length : Nat) (tdi : Option (List Nat)) :
    Machine × List WireOp :=
  let s1 := moveToState m .IRSHIFT
  let s2 := match tdi with
    | some bytes => shiftData s1.1 bytes length false
    | none => (s1.1, [])
  let s3 := moveToState s2.1 s2.1.endIRState
  (s3.1, s1.2 ++ s2.2 ++ s3.2)

/-- `shiftDR(cmd)`: move to DRSHIFT, shift the payload with
`shouldCapture = false` (TDO capture disabled in the source), then move
to the configured `endDRState`. -/
def shiftDR (m : Machine) (length : Nat) (tdi : Option (List Nat)) :
    Machine × List WireOp :=
  let s1 := moveToState m .DRSHIFT
  let s2 := match tdi with
    | some bytes => shiftData s1.1 bytes length false
    | none => (s1.1, [])
  let s3 := moveToState s2.1 s2.1.endDRState
  (s3.1, s1.2 ++ s2.2 ++ s3.2)

/-- `executeCommand(cmd)` restricted to the dispatch arms the claims
exercise: STATE moves to the last state of the path, SIR/SDR shift,
ENDIR/ENDDR store the end state (defaulting to IDLE), and the four
header/trailer commands are stored on the machine. -/
def executeCommand (m : Machine) (cmd : SvfCmd) : Machine × List WireOp :=
  match cmd with
  | .STATE states =>
      match states.getLast? with
      | some s => moveToState m s
      | none => (m, [])
  | .SIR length tdi _ _ _ => shiftIR m length tdi
  | .SDR length tdi _ _ _ => shiftDR m length tdi
  | .ENDIR st => ({ m with endIRState := st.getD .IDLE }, [])
  | .ENDDR st => ({ m with endDRState := st.getD .IDLE }, [])
  | .HIR l t => ({ m with hir := some (.HIR l t) }, [])
  | .TIR l t => ({ m with tir := some (.TIR l t) }, [])
  | .HDR l t => ({ m with hdr := some (.HDR l t) }, [])
  | .TDR l t => ({ m with tdr := some (.TDR l t) }, [])

/-- `verifyData(tdo, expected, mask, bitLength)`: compare byte-by-byte
under the mask; a missing mask argument means 0xFF everywhere, a mask
byte of 0 (including bytes past the end of a supplied mask) skips the
byte, and missing tdo/expected bytes read as 0.  Returns the index of
the first mismatching byte (the source throws there), `none` when the
loop completes. -/
def verifyData (tdo : List Nat) (expected : Option (List Nat))
    (mask : Option (List Nat)) (bitLength : Nat) : Option Nat :=
  let numBytes := (bitLength + 7) / 8
  (List.range numBytes).find? (fun i =>
    let maskByte := match mask with
      | some m => m.getD i 0
      | none => 0xFF
    decide (maskByte ≠ 0 ∧
      (tdo.getD i 0) &&& maskByte ≠ ((expected.getD []).getD i 0) &&& maskByte))

end JTAGStateMachine

namespace SVFParser

/-- The characters removed by `.replace(/\s+/g, '')` for the inputs at
hand (JavaScript `\s` on ASCII whitespace). -/
def isWhitespace (c : Char) : Bool :=
  c = ' ' || c = '\t' || c = '\n' || c = '\r' || c = '\x0b' || c = '\x0c'

/-- The normalisation pipeline of `parseHexData`: strip parentheses,
strip whitespace, uppercase. -/
def normalizeHex (hexToken : List Char) : List Char :=
  ((hexToken.filter (fun c => c ≠ '(' ∧ c ≠ ')')).filter
      (fun c => !isWhitespace c)).map Char.toUpper

/-- Value of one hex digit (by character code: digits 48–57, uppercase
65–70, lowercase 97–102), `none` for a non-hex character. -/
def hexVal (c : Char) : Option Nat :=
  let n := c.toNat
  if 48 ≤ n ∧ n ≤ 57 then some (n - 48)
  else if 65 ≤ n ∧ n ≤ 70 then some (n - 55)
  else if 97 ≤ n ∧ n ≤ 102 then some (n - 87)
  else none

/-- `parseInt(pair, 16) || 0` on a two-character slice: JavaScript
`parseInt` consumes the longest valid prefix, and NaN is coerced to 0. -/
def parsePair (hi lo : Char) : Nat :=
  match hexVal hi with
  | none => 0
  | some h =>
      match hexVal lo with
      | none => h
      | some l => 16 * h + l

/-- The hex string after normalisation and the odd-length `'0'` padding
(empty input stays empty: the source returns early before padding). -/
def paddedHex (hexToken : List Char) : List Char :=
  let hexStr := normalizeHex hexToken
  if hexStr.length = 0 then []
  else if hexStr.length % 2 ≠ 0 then '0' :: hexStr else hexStr

/-- `SVFParser.parseHexData(hexToken, bitLength)`: zero bytes for an
empty literal; otherwise a `max(providedBytes, ceil(bitLength/8))`-byte
array filled LSB-first from the right end of the hex string, the
remainder left zero. -/
def parseHexData (hexToken : List Char) (bitLength : Nat) : List Nat :=
  let hexStr := paddedHex hexToken
  if hexStr.length = 0 then List.replicate ((bitLength + 7) / 8) 0
  else
    let providedBytes := hexStr.length / 2
    let targetBytes := (bitLength + 7) / 8
    let byteLength := max providedBytes targetBytes
    (List.range byteLength).map (fun i =>
      if i < providedBytes then
        let hexIndex := hexStr.length - 2 - 2 * i
        parsePair (hexStr.getD hexIndex '0') (hexStr.getD (hexIndex + 1) '0')
      else 0)

/-- JavaScript `!isNaN(token)` for the tokens the parser meets: a
non-empty decimal digit string (the only numeric tokens in SIR/SDR
commands). -/
def isNumericToken (t : List Char) : Bool :=
  !t.isEmpty && t.all (fun c => '0' ≤ c && c ≤ '9')

/-- `parseInt(token)` on a decimal digit string. -/
def parseIntDec (t : List Char) : Nat :=
  t.foldl (fun acc c => 10 * acc + (c.toNat - '0'.toNat)) 0

/-- Raw fields accumulated by the token loop of `parseShift`. -/
structure ShiftRaw where
  length : Option Nat
  rawTdi : Option (List Char)
  rawTdo : Option (List Char)
  rawMask : Option (List Char)
  rawSMask : Option (List Char)
  deriving Repr

/-- The token scan of `parseShift`: the first numeric token while
`cmd.length` is still falsy (unset or 0) sets the length; `TDI`/`TDO`/
`MASK`/`SMASK` either carry the data glued on or take the next token
(`tokens[++i]`, which past the end leaves the field unset). -/
def parseShiftLoop : List (List Char) → ShiftRaw → ShiftRaw
  | [], acc => acc
  | t :: rest, acc =>
      if isNumericToken t ∧ (acc.length = none ∨ acc.length = some 0) then
        parseShiftLoop rest { acc with length := some (parseIntDec t) }
      else if t.take 3 = "TDI".toList then
        if t = "TDI".toList then
          match rest with
          | nx :: rest2 => parseShiftLoop rest2 { acc with rawTdi := some nx }
          | [] => acc
        else parseShiftLoop rest { acc with rawTdi := some (t.drop 3) }
      else if t.take 3 = "TDO".toList then
        if t = "TDO".toList then
          match rest with
          | nx :: rest2 => parseShiftLoop rest2 { acc with rawTdo := some nx }
          | [] => acc
        else parseShiftLoop rest { acc with rawTdo := some (t.drop 3) }
      else if t.take 4 = "MASK".toList then
        if t = "MASK".toList then
          match rest with
          | nx :: rest2 => parseShiftLoop rest2 { acc with rawMask := some nx }
          | [] => acc
        else parseShiftLoop rest { acc with rawMask := some (t.drop 4) }
      else if t.take 5 = "SMASK".toList then
        if t = "SMASK".toList then
          match rest with
          | nx :: rest2 => parseShiftLoop rest2 { acc with rawSMask := some nx }
          | [] => acc
        else parseShiftLoop rest { acc with rawSMask := some (t.drop 5) }
      else parseShiftLoop rest acc

/-- The parsed data fields of a SIR/SDR command. -/
structure ShiftCmd where
  length : Nat
  tdi : Option (List Nat)
  tdo : Option (List Nat)
  mask : Option (List Nat)
  smask : Option (List Nat)
  deriving DecidableEq, Repr

/-- `parseShift(type, tokens)` (the fields; the type tag is the caller's
first token): scan the tokens after the command name, then run each
non-empty raw literal through `parseHexData` with `bitLength =
cmd.length || 0`. -/
def parseShift (tokens : List (List Char)) : ShiftCmd :=
  let raw := parseShiftLoop tokens
    { length := none, rawTdi := none, rawTdo := none,
      rawMask := none, rawSMask := none }
  let bitLength := raw.length.getD 0
  let conv : Option (List Char) → Option (List Nat) := fun r =>
    match r with
    | some s => if s.isEmpty then none else some (parseHexData s bitLength)
    | none => none
  { length := bitLength, tdi := conv raw.rawTdi, tdo := conv raw.rawTdo,
    mask := conv raw.rawMask, smask := conv raw.rawSMask }

end SVFParser

namespace USBBlasterII

/-- Byte-shift command stream of `shiftBytesRaw` after the anchor byte:
chunks of at most 63 data bytes, each preceded by `0x80 | n`.  The USB
packet batching in the source does not change the byte stream.  The
first argument is loop fuel; every iteration consumes at least one byte,
so fuel = `remaining` makes the recursion total without changing it. -/
def rawPackets (tdiBytes : List Nat) : Nat → Nat → Nat → List Nat
  | 0, _, _ => []
  | fuel + 1, startByte, remaining =>
      if remaining = 0 then []
      else
        let n := min 63 remaining
        (0x80 ||| (n &&& 0x3F)) ::
          ((List.range n).map (fun i => tdiBytes.getD (startByte + i) 0) ++
            rawPackets tdiBytes fuel (startByte + n) (remaining - n))

/-- `shiftBytesRaw(tdiBytes, startByte, numBytes)`: one bit-bang anchor
byte `0x2C`, then the byte-shift command stream. -/
def shiftBytesRawWire (tdiBytes : List Nat) (startByte numBytes : Nat) : List Nat :=
  0x2C :: rawPackets tdiBytes numBytes startByte numBytes

/-- `shiftBytes(tdiBytes, bitLength)`: byte-shift all bytes but the last,
bit-bang the remaining bits with TMS=0, then the final bit with TMS=1.
For `bitLength = 0` the source reads `tdiBytes[-1] (undefined)` and
clocks a single TMS=1 bit with TDI=0; the callers always pass
`bitLength ≥ 1`. -/
def shiftBytesWire (tdiBytes : List Nat) (bitLength : Nat) : List Nat :=
  let numBytes := (bitLength + 7) / 8
  let bytesToShiftFast := if numBytes > 1 then numBytes - 1 else 0
  let fastPart :=
    if bytesToShiftFast > 0 then shiftBytesRawWire tdiBytes 0 bytesToShiftFast
    else []
  let lastByteStart := bytesToShiftFast
  let remainingBits := bitLength - bytesToShiftFast * 8
  let midPart :=
    if remainingBits > 1 then
      (List.range (remainingBits - 1)).flatMap (fun i =>
        let tdi := tdiBytes.getD (lastByteStart + i / 8) 0 / 2 ^ (i % 8) % 2
        [0x2C ||| (tdi <<< 4), 0x2C ||| (tdi <<< 4) ||| 1])
    else []
  let lastTdi :=
    if bitLength = 0 then 0
    else
      let i := remainingBits - 1
      tdiBytes.getD (lastByteStart + i / 8) 0 / 2 ^ (i % 8) % 2
  fastPart ++ midPart ++
    [0x2C ||| (lastTdi <<< 4) ||| 0x02, 0x2C ||| (lastTdi <<< 4) ||| 0x03]

/-- `toggleClockCycles(cycles)`: no-op for 0 cycles, otherwise an anchor
byte followed by `shiftBytesRaw` over `ceil(cycles/8)` zero bytes. -/
def toggleClockCyclesWire (cycles : Nat) : List Nat :=
  if cycles = 0 then []
  else
    let numBytes := (cycles + 7) / 8
    0x2C :: shiftBytesRawWire (List.replicate numBytes 0) 0 numBytes

/-- `canUseByteshiftMode(tmsBits, startIndex, totalLength)`: the next
(up to) 8 TMS bits are all 0. -/
def canUseByteshiftMode (tmsBits : List Nat) (startIndex totalLength : Nat) : Bool :=
  (List.range (min 8 (totalLength - startIndex))).all
    (fun i => tmsBits.getD (startIndex + i) 0 == 0)

/-- One packed TDI byte of `shiftBytewise` (bits past
`startBit + bitCount` left clear, as by the `break` in the source). -/
def packTdiByte (tdiBits : List Nat) (startBit bitCount byteIndex : Nat) : Nat :=
  (List.range 8).foldl (fun acc bit =>
    let bitIdx := startBit + byteIndex * 8 + bit
    if bitIdx ≥ startBit + bitCount then acc
    else if tdiBits.getD bitIdx 0 ≠ 0 then acc ||| (1 <<< bit) else acc) 0

/-- The command stream of `shiftBytewise`: chunks of at most 63 packed
bytes, each preceded by `0x80 | n`; no anchor byte is sent here.  First
argument is loop fuel, as in `rawPackets`. -/
def bytewisePackets (tdiBits : List Nat) (startBit bitCount : Nat) :
    Nat → Nat → Nat → List Nat
  | 0, _, _ => []
  | fuel + 1, byteOffset, remaining =>
      if remaining = 0 then []
      else
        let n := min 63 remaining
        (0x80 ||| (n &&& 0x3F)) ::
          ((List.range n).map
              (fun i => packTdiByte tdiBits startBit bitCount (byteOffset + i)) ++
            bytewisePackets tdiBits startBit bitCount fuel (byteOffset + n)
              (remaining - n))

/-- `shiftBytewise(tdiBits, startBit, bitCount)`. -/
def shiftBytewiseWire (tdiBits : List Nat) (startBit bitCount : Nat) : List Nat :=
  bytewisePackets tdiBits startBit bitCount ((bitCount + 7) / 8) 0 ((bitCount + 7) / 8)

/-- `shiftBitBang(tdiBits, tmsBits, startIndex, bitCount, capture)`: two
bit-bang bytes per bit (TCK=0 setup then TCK=1 clock, read-enable bit
0x40 on the clock byte when capturing). -/
def shiftBitBangWire (tdiBits tmsBits : List Nat) (startIndex bitCount : Nat)
    (capture : Bool) : List Nat :=
  (List.range bitCount).flatMap (fun i =>
    let bitIdx := startIndex + i
    let tdi := if tdiBits.getD bitIdx 0 ≠ 0 then 0x10 else 0
    let tms := if tmsBits.getD bitIdx 0 ≠ 0 then 0x02 else 0
    let base := 0x2C ||| tdi ||| tms
    [base, base ||| 1 ||| (if capture then 0x40 else 0)])

/-- The `while (bitIndex < bitLength)` loop of `shiftBits`: byte-shift
runs of TMS=0 of at least 16 bits when not capturing, bit-bang batches of
up to 64 bits otherwise.  First argument is loop fuel; every iteration
advances `bitIndex` by at least one, so fuel = `bitLength` makes the
recursion total without changing it. -/
def shiftBitsGo (tdiBits tmsBits : List Nat) (bitLength : Nat) (capture : Bool) :
    Nat → Nat → List Nat
  | 0, _ => []
  | fuel + 1, bitIndex =>
      if bitIndex < bitLength then
        if (!capture && canUseByteshiftMode tmsBits bitIndex bitLength) = true ∧
            bitLength - bitIndex ≥ 16 then
          let bytesToShift := (bitLength - bitIndex) / 8
          let bitsToShift := bytesToShift * 8
          shiftBytewiseWire tdiBits bitIndex bitsToShift ++
            shiftBitsGo tdiBits tmsBits bitLength capture fuel (bitIndex + bitsToShift)
        else
          let batchSize := min 64 (bitLength - bitIndex)
          shiftBitBangWire tdiBits tmsBits bitIndex batchSize capture ++
            shiftBitsGo tdiBits tmsBits bitLength capture fuel (bitIndex + batchSize)
      else []

/-- `shiftBits(tdiBits, tmsBits, bitLength, capture)`, wire bytes only. -/
def shiftBitsWire (tdiBits tmsBits : List Nat) (bitLength : Nat) (capture : Bool) :
    List Nat :=
  shiftBitsGo tdiBits tmsBits bitLength capture bitLength 0

/-- Device-side interpretation of an OUT byte stream (§4.2.1 of the
spec): a byte with bit 7 set starts a byte-shift command clocking
8·(b & 0x3F) edges and consuming that many data bytes; any other byte is
a bit-bang sample whose TCK level is bit 0, contributing one rising edge
when TCK=1 (the adapters always alternate TCK=0/TCK=1 pairs). -/
def edgeCountFuel : Nat → List Nat → Nat
  | 0, _ => 0
  | _ + 1, [] => 0
  | fuel + 1, b :: rest =>
      if b &&& 0x80 ≠ 0 then
        8 * (b &&& 0x3F) + edgeCountFuel fuel (rest.drop (b &&& 0x3F))
      else (if b &&& 0x01 ≠ 0 then 1 else 0) + edgeCountFuel fuel rest

/-- Total rising TCK edges of a stream; every step of the interpreter
consumes at least one byte, so fuel = length suffices. -/
def edgeCount (stream : List Nat) : Nat :=
  edgeCountFuel stream.length stream

/-- One adapter call of the conservation claim. -/
inductive BlasterCall where
  | bitsCall (tdiBits tmsBits : List Nat) (bitLength : Nat) (capture : Bool)
  | bytesCall (tdiBytes : List Nat) (bitLength : Nat)
  | clockCall (cycles : Nat)
  deriving Repr

/-- Wire bytes emitted by one adapter call. -/
def callWire : BlasterCall → List Nat
  | .bitsCall tdiBits tmsBits bitLength capture =>
      shiftBitsWire tdiBits tmsBits bitLength capture
  | .bytesCall tdiBytes bitLength => shiftBytesWire tdiBytes bitLength
  | .clockCall cycles => toggleClockCyclesWire cycles

/-- Requested TCK edges of one adapter call. -/
def callRequest : BlasterCall → Nat
  | .bitsCall _ _ bitLength _ => bitLength
  | .bytesCall _ bitLength => bitLength
  | .clockCall cycles => cycles

/-- Edge count the amended conservation claim assigns to one call:
`n_bits` for the two shift entry points, `8·ceil(cycles/8)` for
`toggleClockCycles` (which pads to whole byte-shift bytes). -/
def amendedRequest : BlasterCall → Nat
  | .bitsCall _ _ bitLength _ => bitLength
  | .bytesCall _ bitLength => bitLength
  | .clockCall cycles => 8 * ((cycles + 7) / 8)

/-- `shiftBytes` is only edge-exact for a positive bit count (at
`n_bits = 0` the source still clocks one exit bit). -/
def bytesCallPositive : BlasterCall → Bool
  | .bytesCall _ bitLength => decide (1 ≤ bitLength)
  | _ => true


end USBBlasterII

namespace XilinxJTAG

/-- Xilinx 7-series instruction opcodes used by `programSRAM`. -/
def IR_CFG_IN : Nat := 0x05

def IR_JPROGRAM : Nat := 0x0B

def IR_JSTART : Nat := 0x0C

def IR_BYPASS : Nat := 0x3F

/-- The numeric TAP state encoding of `this.STATES`. -/
def STATE_RUN_TEST_IDLE : Nat := 1

def STATE_SELECT_DR_SCAN : Nat := 2

def STATE_SHIFT_DR : Nat := 4

def STATE_UPDATE_DR : Nat := 8

def STATE_UPDATE_IR : Nat := 15

/-- One abstract TAP-engine operation issued by `programSRAM` (the
end-state argument of `shiftIR`/`shiftDR` is recorded as passed). -/
inductive XOp where
  | resetOp
  | shiftIROp (instruction : Nat) (readBack : Bool) (endState : Nat)
  | setStateOp (target : Nat)
  | toggleClkOp (count : Nat)
  | shiftDROp (tdi : List Nat) (bitLen : Nat) (readBack : Bool) (endState : Nat)
  | delayOp (ms : Nat)
  deriving DecidableEq, Repr

/-- `bitReverse`'s inner loop on one byte:
`rev = (rev << 1) | (byte & 1); byte >>= 1`, eight times. -/
def bitRevByte (byte : Nat) : Nat :=
  ((List.range 8).foldl (fun p _ => (p.1 / 2, p.2 * 2 + p.1 % 2)) (byte, 0)).2

/-- `bitReverse(data)`: bit-reverse every byte. -/
def bitReverse (data : List Nat) : List Nat := data.map bitRevByte

/-- JavaScript `Array.slice(start, stop)` for in-range arguments. -/
def jsSlice (l : List Nat) (start stop : Nat) : List Nat :=
  (l.drop start).take (stop - start)

/-- The INIT poll loop of `programSRAM` step 3: up to 100 BYPASS
readbacks; stop as soon as bit 0 of the response is set, sleeping 10 ms
between unsuccessful tries.  `bypassReads` supplies the mocked response
bytes in order; returns the issued operations, the `initDone` flag and
the unconsumed responses. -/
def pollInit : Nat → List Nat → List XOp × Bool × List Nat
  | 0, reads => ([], false, reads)
  | retriesLeft + 1, reads =>
      let status := reads.headD 0
      let rest := reads.tail
      if status &&& 0x01 ≠ 0 then
        ([.shiftIROp IR_BYPASS true STATE_RUN_TEST_IDLE], true, rest)
      else
        let r := pollInit retriesLeft rest
        (.shiftIROp IR_BYPASS true STATE_RUN_TEST_IDLE :: .delayOp 10 :: r.1,
         r.2.1, r.2.2)

/-- Step 7 of `programSRAM`: the configuration data in 4096-byte chunks,
each shifted with `shiftDR(chunk, chunk.length * 8, false, endState)`
where only the last chunk ends in UPDATE_DR. -/
def programChunks (configData : List Nat) : List XOp :=
  let chunkSize := 4096
  let totalChunks := (configData.length + chunkSize - 1) / chunkSize
  (List.range totalChunks).map (fun i =>
    let offset := i * chunkSize
    let remaining := configData.length - offset
    let thisChunkSize := min chunkSize remaining
    let chunk := jsSlice configData offset (offset + thisChunkSize)
    let endState :=
      if i = totalChunks - 1 then STATE_UPDATE_DR else STATE_SHIFT_DR
    XOp.shiftDROp chunk (chunk.length * 8) false endState)

/-- `programSRAM(bitstream)` as the sequence of TAP operations it issues
together with the DONE bit of the final BYPASS readback
(`(verifyStatus[0] >> 5) & 1`); `bypassReads` mocks the BYPASS response
bytes consumed by the readback `shiftIR` calls in order.  The source
returns `true` either way, warning when DONE is clear. -/
def programSRAM (bitstream : List Nat) (bypassReads : List Nat) :
    List XOp × Bool :=
  let configData := bitReverse bitstream
  let poll := pollInit 100 bypassReads
  let verifyByte := poll.2.2.headD 0
  let done := (verifyByte >>> 5) &&& 0x01 = 1
  ([.resetOp, .shiftIROp IR_JPROGRAM false STATE_RUN_TEST_IDLE] ++ poll.1 ++
    [.setStateOp STATE_RUN_TEST_IDLE, .toggleClkOp 120000,
     .shiftIROp IR_CFG_IN false STATE_RUN_TEST_IDLE,
     .setStateOp STATE_SELECT_DR_SCAN] ++
    programChunks configData ++
    [.setStateOp STATE_RUN_TEST_IDLE, .shiftIROp IR_JSTART false STATE_UPDATE_IR,
     .toggleClkOp 2000, .resetOp, .shiftIROp IR_BYPASS true STATE_RUN_TEST_IDLE],
   decide done)

/-- The operation sequence claim F of the specification describes, stated
independently of the loop variables of the source: reset, JPROGRAM, one
BYPASS poll (the mock answers INIT immediately), 120000 clocks after
moving to IDLE, CFG_IN, a move towards the DR scan chain,
`N = ceil(len/4096)` DR chunk shifts of the bit-reversed payload of which
only the last ends in UPDATE_DR, a move to IDLE, JSTART exiting to
UPDATE_IR, 2000 clocks, reset, and a final BYPASS read. -/
def expectedProgramTrace (payload : List Nat) : List XOp :=
  let d := bitReverse payload
  let n := (d.length + 4095) / 4096
  [.resetOp, .shiftIROp IR_JPROGRAM false STATE_RUN_TEST_IDLE,
   .shiftIROp IR_BYPASS true STATE_RUN_TEST_IDLE,
   .setStateOp STATE_RUN_TEST_IDLE, .toggleClkOp 120000,
   .shiftIROp IR_CFG_IN false STATE_RUN_TEST_IDLE,
   .setStateOp STATE_SELECT_DR_SCAN] ++
  (List.range n).map (fun i =>
    .shiftDROp ((d.drop (i * 4096)).take 4096)
      (min 4096 (d.length - i * 4096) * 8) false
      (if i = n - 1 then STATE_UPDATE_DR else STATE_SHIFT_DR)) ++
  [.setStateOp STATE_RUN_TEST_IDLE, .shiftIROp IR_JSTART false STATE_UPDATE_IR,
   .toggleClkOp 2000, .resetOp, .shiftIROp IR_BYPASS true STATE_RUN_TEST_IDLE]

end XilinxJTAG

namespace DigilentFTDI

/-- The full-byte loop of `writeTDI`: MPSSE byte-mode write commands of
up to 4096 bytes, each as `cmd, (len-1) & 0xFF, (len-1) >> 8, data…`.
First argument is loop fuel; each iteration consumes at least one byte,
so fuel = `numBytes` makes the recursion total without changing it. -/
def writeTDIByteLoop (tdiArr : Option (List Nat)) (byteCmd : Nat) :
    Nat → Nat → Nat → List Nat
  | 0, _, _ => []
  | fuel + 1, txOffset, numBytes =>
      if numBytes = 0 then []
      else
        let chunkSize := min numBytes 4096
        let lenMinus1 := chunkSize - 1
        [byteCmd, lenMinus1 &&& 0xFF, (lenMinus1 >>> 8) &&& 0xFF] ++
          (List.range chunkSize).map (fun i =>
            match tdiArr with
            | some a => a.getD (txOffset + i) 0
            | none => 0) ++
          writeTDIByteLoop tdiArr byteCmd fuel (txOffset + chunkSize)
            (numBytes - chunkSize)

/-- `DigilentFTDI.writeTDI(tdi, tdo, bitLen, lastBitWithTMS)`: the MPSSE
command bytes pushed to the output buffer.  `realLen = bitLen - 1` bits
when the last bit exits via TMS; full bytes in byte mode, the residual
bits in bit mode, and the TMS exit bit as a TMS-write with TDI carried in
bit 7 of the data byte.  A lone full byte without TMS exit is converted
to an 8-bit bit-mode write.  `readBack` mirrors `tdo !== null`. -/
def writeTDI (tdiArr : Option (List Nat)) (readBack : Bool) (bitLen : Nat)
    (lastBitWithTMS : Bool) : List Nat :=
  if bitLen = 0 then []
  else
    let realLen := if lastBitWithTMS then bitLen - 1 else bitLen
    let numBytes0 := realLen / 8
    let numBits0 := realLen % 8
    let byteCmd := 0x08 ||| 0x01 ||| (if tdiArr.isSome then 0x10 else 0) |||
      (if readBack then 0x20 else 0)
    let bitCmd := byteCmd ||| 0x02
    let convert := numBytes0 = 1 ∧ numBits0 = 0 ∧ lastBitWithTMS = false
    let numBytes := if convert then 0 else numBytes0
    let numBits := if convert then 8 else numBits0
    let bytePart := writeTDIByteLoop tdiArr byteCmd numBytes 0 numBytes
    let txOffset := numBytes
    let bitPart :=
      if numBits > 0 then
        let bitData := match tdiArr with
          | some a => a.getD txOffset 0
          | none => 0
        [bitCmd, numBits - 1, bitData]
      else []
    let tmsPart :=
      if lastBitWithTMS then
        let lastBitData := match tdiArr with
          | some a => (a.getD txOffset 0 >>> numBits) &&& 1
          | none => 0
        let tmsCmd := 0x40 ||| 0x08 ||| 0x02 ||| 0x01 |||
          (if readBack then 0x20 else 0)
        [tmsCmd, 0, if lastBitData ≠ 0 then 0x81 else 0x01]
      else []
    bytePart ++ bitPart ++ tmsPart

end DigilentFTDI

/-!
Theorems for the claims, in claim order.  Helper lemmas carry plain
names; each claim's theorem is marked with its id.
-/

/-- Simulating the BFS path through the transition table really ends at
the target, for every ordered pair of the 16 states. -/
theorem applyTMS_findStatePath :
    ∀ s t : TapState,
      JTAGStateMachine.applyTMSSequence s (JTAGStateMachine.findStatePath s t) = t := by
  decide

/-- A BFS path is empty only between identical states. -/
theorem findStatePath_eq_nil_iff :
    ∀ s t : TapState, JTAGStateMachine.findStatePath s t = [] ↔ s = t := by
  decide

/-- C1: for every pair of the 16 TAP states, `findStatePath` returns a
TMS sequence that drives the TAP from the source to the target, has the
graph-shortest length, is empty exactly on the diagonal, and is the
lexicographically least shortest path (TMS=0 preferred first). -/
theorem claim_C1_findStatePath_shortest :
    ∀ s t : TapState,
      JTAGStateMachine.applyTMSSequence s (JTAGStateMachine.findStatePath s t) = t ∧
      (JTAGStateMachine.findStatePath s t).length = TapSpec.dist s t ∧
      (s = t → JTAGStateMachine.findStatePath s t = []) ∧
      JTAGStateMachine.findStatePath s t = TapSpec.minLexShortestPath s t := by
  decide

/-- Witness for C1 at concrete states: the diagonal hypothesis is
dischargeable and the path RESET→DRSHIFT simulates correctly. -/
theorem claim_C1_witness :
    JTAGStateMachine.findStatePath TapState.IDLE TapState.IDLE = [] ∧
    JTAGStateMachine.applyTMSSequence TapState.RESET
        (JTAGStateMachine.findStatePath TapState.RESET TapState.DRSHIFT) =
      TapState.DRSHIFT :=
  ⟨(claim_C1_findStatePath_shortest TapState.IDLE TapState.IDLE).2.2.1 rfl,
   (claim_C1_findStatePath_shortest TapState.RESET TapState.DRSHIFT).1⟩

/-- Bytes below `providedBytes` come from the hex pairs, read from the
right end of the (padded) hex string. -/
theorem parseHexData_getD_lt (tok : List Char) (n i : Nat)
    (hi : i < (SVFParser.paddedHex tok).length / 2) :
    (SVFParser.parseHexData tok n).getD i 0 =
      SVFParser.parsePair
        ((SVFParser.paddedHex tok).getD
          ((SVFParser.paddedHex tok).length - 2 - 2 * i) '0')
        ((SVFParser.paddedHex tok).getD
          ((SVFParser.paddedHex tok).length - 2 - 2 * i + 1) '0') := by
  unfold SVFParser.parseHexData
  by_cases h0 : (SVFParser.paddedHex tok).length = 0
  · omega
  · have hmax : i < max ((SVFParser.paddedHex tok).length / 2) ((n + 7) / 8) := by
      omega
    simp only [if_neg h0]
    rw [List.getD_eq_getElem?_getD, List.getElem?_map, List.getElem?_range hmax,
      Option.map_some', Option.getD_some, if_pos hi]

/-- C2: `parseHexData` is LSB-first at byte granularity — byte `i` of the
result is the value of the hex pair `2·(i+1)` characters from the right
end of the stripped literal — and on the literal `"567F00000000"` with
length 48 it yields exactly `[00, 00, 00, 00, 7F, 56]`. -/
theorem claim_C2_parseHexData_lsb_first (tok : List Char) (n : Nat) :
    (∀ i, i < (SVFParser.paddedHex tok).length / 2 →
      (SVFParser.parseHexData tok n).getD i 0 =
        SVFParser.parsePair
          ((SVFParser.paddedHex tok).getD
            ((SVFParser.paddedHex tok).length - 2 - 2 * i) '0')
          ((SVFParser.paddedHex tok).getD
            ((SVFParser.paddedHex tok).length - 2 - 2 * i + 1) '0')) ∧
    SVFParser.parseHexData "567F00000000".toList 48 =
      [0x00, 0x00, 0x00, 0x00, 0x7F, 0x56] :=
  ⟨fun i hi => parseHexData_getD_lt tok n i hi, by decide⟩

/-- Witness for C2 at a concrete literal: byte 0 of `parseHexData "AB" 8`
is the pair formed by the two rightmost (here the only) characters. -/
theorem claim_C2_witness :
    (SVFParser.parseHexData "AB".toList 8).getD 0 0 =
      SVFParser.parsePair ((SVFParser.paddedHex "AB".toList).getD 0 '0')
        ((SVFParser.paddedHex "AB".toList).getD 1 '0') :=
  (claim_C2_parseHexData_lsb_first "AB".toList 8).1 0 (by decide)

namespace JTAGStateMachine

theorem findStatePath_self (t : TapState) : findStatePath t t = [] := by
  simp [findStatePath]

theorem moveToState_currentState (m : Machine) (t : TapState) :
    (moveToState m t).1.currentState = t := by
  unfold moveToState
  by_cases hlen : (findStatePath m.currentState t).length = 0
  · have hnil : findStatePath m.currentState t = [] := List.length_eq_zero.mp hlen
    have heq := (findStatePath_eq_nil_iff m.currentState t).mp hnil
    simp [hlen, heq, findStatePath_self]
  · simp [hlen, applyTMS_findStatePath]

theorem moveToState_endIRState (m : Machine) (t : TapState) :
    (moveToState m t).1.endIRState = m.endIRState := by
  by_cases h : (findStatePath m.currentState t).length = 0 <;> simp [moveToState, h]

theorem moveToState_endDRState (m : Machine) (t : TapState) :
    (moveToState m t).1.endDRState = m.endDRState := by
  by_cases h : (findStatePath m.currentState t).length = 0 <;> simp [moveToState, h]

theorem shiftData_endIRState (m : Machine) (tdi : List Nat) (len : Nat) (cap : Bool) :
    (shiftData m tdi len cap).1.endIRState = m.endIRState := by
  by_cases h0 : len = 0
  · simp [shiftData, h0]
  · by_cases h1 : len > 1000 ∧ cap = false <;> simp [shiftData, h0, h1]

theorem shiftData_endDRState (m : Machine) (tdi : List Nat) (len : Nat) (cap : Bool) :
    (shiftData m tdi len cap).1.endDRState = m.endDRState := by
  by_cases h0 : len = 0
  · simp [shiftData, h0]
  · by_cases h1 : len > 1000 ∧ cap = false <;> simp [shiftData, h0, h1]

end JTAGStateMachine

namespace JTAGStateMachine

theorem shiftIR_currentState (m : Machine) (len : Nat) (tdi : Option (List Nat)) :
    (shiftIR m len tdi).1.currentState = m.endIRState := by
  unfold shiftIR
  cases tdi with
  | none =>
      simp only
      rw [moveToState_currentState, moveToState_endIRState]
  | some bytes =>
      simp only
      rw [moveToState_currentState, shiftData_endIRState, moveToState_endIRState]

theorem shiftDR_currentState (m : Machine) (len : Nat) (tdi : Option (List Nat)) :
    (shiftDR m len tdi).1.currentState = m.endDRState := by
  unfold shiftDR
  cases tdi with
  | none =>
      simp only
      rw [moveToState_currentState, moveToState_endDRState]
  | some bytes =>
      simp only
      rw [moveToState_currentState, shiftData_endDRState, moveToState_endDRState]

end JTAGStateMachine

/-- C3: after an executed SIR (resp. SDR) command the tracked TAP state
equals the configured `endIRState` (resp. `endDRState`), for every
machine state (hence every starting state and configured end state),
every payload presence/length — covering the `length = 0` early return,
the `length > 1000` byte-shift fast path and the bit path — and any
attached TDO/MASK/SMASK fields. -/
theorem claim_C3_end_of_shift_state (m : JTAGStateMachine.Machine) (len : Nat)
    (tdi tdo mask smask : Option (List Nat)) :
    (JTAGStateMachine.executeCommand m
        (.SIR len tdi tdo mask smask)).1.currentState = m.endIRState ∧
    (JTAGStateMachine.executeCommand m
        (.SDR len tdi tdo mask smask)).1.currentState = m.endDRState :=
  ⟨JTAGStateMachine.shiftIR_currentState m len tdi,
   JTAGStateMachine.shiftDR_currentState m len tdi⟩

/-- C10: `verifyData` throws (returns a mismatch index) iff some byte
index below `ceil(bitLength/8)` has a nonzero mask byte (0xFF everywhere
when the mask argument is missing, 0 — skip — for bytes past the end of a
supplied mask) at which tdo and expected differ under the mask, missing
tdo/expected bytes reading as 0; otherwise it returns `none` (the source
returns normally, mutating nothing). -/
theorem claim_C10_verifyData_iff (tdo : List Nat)
    (expected mask : Option (List Nat)) (bitLength : Nat) :
    (JTAGStateMachine.verifyData tdo expected mask bitLength).isSome = true ↔
      ∃ i, i < (bitLength + 7) / 8 ∧
        (match mask with | some m => m.getD i 0 | none => 0xFF) ≠ 0 ∧
        (tdo.getD i 0) &&& (match mask with | some m => m.getD i 0 | none => 0xFF) ≠
          ((expected.getD []).getD i 0) &&&
            (match mask with | some m => m.getD i 0 | none => 0xFF) := by
  unfold JTAGStateMachine.verifyData
  rw [List.find?_isSome]
  constructor
  · rintro ⟨i, hmem, hp⟩
    exact ⟨i, List.mem_range.mp hmem, of_decide_eq_true hp⟩
  · rintro ⟨i, hlt, hp⟩
    exact ⟨i, List.mem_range.mpr hlt, decide_eq_true hp⟩

/-- C5 counterexample: `shiftBytes([0xAA, 0x55, 0xFF], 24)` does not emit
the claimed stream (anchor, `0x83`, all three data bytes, one bit-bang
exit pair): the source byte-shifts only `numBytes - 1 = 2` bytes and
bit-bangs the whole last byte. -/
theorem claim_C5_counterexample :
    USBBlasterII.shiftBytesWire [0xAA, 0x55, 0xFF] 24 ≠
      [0x2C, 0x83, 0xAA, 0x55, 0xFF, 0x3E, 0x3F] := by
  decide

/-- C5 amended: `shiftBytes([0xAA, 0x55, 0xFF], 24)` emits the anchor
byte `0x2C`, the byte-shift command `0x82 = 0x80 | 2` with data
`0xAA 0x55`, then bits 0..6 of `0xFF` as bit-bang pairs with TMS=0
(`0x3C 0x3D`, TDI set), and finally bit 7 as a bit-bang pair with TMS=1
(`0x3E` setup with TCK=0, `0x3F` clock with TCK=1). -/
theorem claim_C5_shiftBytes_wire :
    USBBlasterII.shiftBytesWire [0xAA, 0x55, 0xFF] 24 =
      [0x2C, 0x82, 0xAA, 0x55] ++
      [0x3C, 0x3D, 0x3C, 0x3D, 0x3C, 0x3D, 0x3C, 0x3D, 0x3C, 0x3D,
       0x3C, 0x3D, 0x3C, 0x3D] ++
      [0x3E, 0x3F] := by
  decide

/-- C6 counterexample: the MPSSE write of `tdi=[0x81]`, 8 bits, TMS exit
on the last bit does not encode the bit-mode command as
`0x1B, 6, 0x01` — the source pushes the raw unmasked TDI byte. -/
theorem claim_C6_counterexample :
    DigilentFTDI.writeTDI (some [0x81]) false 8 true ≠
      [0x1B, 6, 0x01, 0x4B, 0, 0x81] := by
  decide

/-- C6 amended: the buffered MPSSE commands are the bit-mode write
`0x1B, 6, 0x81` for bits 0..6 (data byte is the raw TDI byte `0x81`;
the device clocks only its 7 low bits) followed by the TMS-write
`0x4B, 0, 0x81` for bit 7 (TDI bit 7 = 1 carried in bit 7 of the TMS
data byte together with TMS=1). -/
theorem claim_C6_writeTDI_wire :
    DigilentFTDI.writeTDI (some [0x81]) false 8 true =
      [0x1B, 6, 0x81, 0x4B, 0, 0x81] := by
  decide

/-- C8: with `HIR 8 TDI(AA)` installed, executing `SIR 8 TDI(55)` from
IDLE shifts only the 8 payload bits (last bit TMS=1) between the moves
into and out of IRSHIFT — the stored header contributes no bits, contrary
to the header/trailer injection the specification describes. -/
theorem claim_C8_header_not_injected :
    JTAGStateMachine.executeCommand
        ((JTAGStateMachine.executeCommand
            { JTAGStateMachine.Machine.init with currentState := .IDLE }
            (.HIR 8 (some [0xAA]))).1)
        (.SIR 8 (some [0x55]) none none none) =
      ({ JTAGStateMachine.Machine.init with
          currentState := .IDLE, hir := some (.HIR 8 (some [0xAA])) },
       [.shiftBitsOp [0, 0, 0, 0] [1, 1, 0, 0] false,
        .shiftBitsOp [1, 0, 1, 0, 1, 0, 1, 0] [0, 0, 0, 0, 0, 0, 0, 1] false,
        .shiftBitsOp [0, 0] [1, 0] false]) := by
  decide

/-- Bytes at or past `providedBytes` (and past the array) are zero. -/
theorem parseHexData_getD_ge (tok : List Char) (n i : Nat)
    (hi : (SVFParser.paddedHex tok).length / 2 ≤ i) :
    (SVFParser.parseHexData tok n).getD i 0 = 0 := by
  unfold SVFParser.parseHexData
  by_cases h0 : (SVFParser.paddedHex tok).length = 0
  · simp only [if_pos h0]
    rw [List.getD_eq_getElem?_getD, List.getElem?_replicate]
    split <;> rfl
  · simp only [if_neg h0]
    rw [List.getD_eq_getElem?_getD]
    by_cases hlt : i < max ((SVFParser.paddedHex tok).length / 2) ((n + 7) / 8)
    · rw [List.getElem?_map, List.getElem?_range hlt, Option.map_some',
        Option.getD_some, if_neg (by omega)]
    · rw [List.getElem?_eq_none (by simp; omega)]
      rfl

/-- C9 counterexample: `SDR 8 TDI(FFFF)` — a hex literal longer than the
declared length — yields a parser TDI array of 2 bytes, not
`ceil(8/8) = 1`; the parser keeps `max(providedBytes, ceil(n/8))` bytes
and does not truncate or zero-check the extra high bytes. -/
theorem claim_C9_counterexample :
    ((SVFParser.parseShift ["8".toList, "TDI(FFFF)".toList]).tdi.getD []).length ≠
      (8 + 7) / 8 := by
  decide

/-- C9 amended: a parsed hex array has `ceil(n/8)` bytes when the literal
supplies at most that many bytes (an empty literal gives exactly the
zero-filled `ceil(n/8)` bytes), and in general
`max(providedBytes, ceil(n/8))` bytes; all bytes at or past
`providedBytes` are zero, so a short literal is zero-extended at the
high end. -/
theorem claim_C9_parseHexData_length (tok : List Char) (n : Nat) :
    ((SVFParser.paddedHex tok).length = 0 →
      (SVFParser.parseHexData tok n).length = (n + 7) / 8) ∧
    ((SVFParser.paddedHex tok).length ≠ 0 →
      (SVFParser.parseHexData tok n).length =
        max ((SVFParser.paddedHex tok).length / 2) ((n + 7) / 8)) ∧
    (∀ i, (SVFParser.paddedHex tok).length / 2 ≤ i →
      (SVFParser.parseHexData tok n).getD i 0 = 0) := by
  refine ⟨fun h0 => ?_, fun h0 => ?_, fun i hi => parseHexData_getD_ge tok n i hi⟩
  · simp [SVFParser.parseHexData, h0]
  · simp [SVFParser.parseHexData, h0]

/-- Witness for C9 amended at the literal `"AB"` with length 24: the
array has `max(1, 3) = 3` bytes and byte 1 is zero. -/
theorem claim_C9_witness :
    (SVFParser.parseHexData "AB".toList 24).length =
      max ((SVFParser.paddedHex "AB".toList).length / 2) ((24 + 7) / 8) ∧
    (SVFParser.parseHexData "AB".toList 24).getD 1 0 = 0 :=
  ⟨(claim_C9_parseHexData_length "AB".toList 24).2.1 (by decide),
   (claim_C9_parseHexData_length "AB".toList 24).2.2 1 (by decide)⟩

namespace XilinxJTAG

theorem programChunks_eq (d : List Nat) :
    programChunks d = (List.range ((d.length + 4095) / 4096)).map (fun i =>
      .shiftDROp ((d.drop (i * 4096)).take 4096)
        (min 4096 (d.length - i * 4096) * 8) false
        (if i = (d.length + 4095) / 4096 - 1 then STATE_UPDATE_DR
         else STATE_SHIFT_DR)) := by
  unfold programChunks
  dsimp only
  have hceil : (d.length + 4096 - 1) / 4096 = (d.length + 4095) / 4096 := by omega
  rw [hceil]
  apply List.map_congr_left
  intro i hi
  have hlt : i < (d.length + 4095) / 4096 := List.mem_range.mp hi
  have hoff : i * 4096 < d.length := by omega
  simp only [jsSlice]
  have hdroplen : (d.drop (i * 4096)).length = d.length - i * 4096 :=
    List.length_drop _ _
  have htake : (d.drop (i * 4096)).take (i * 4096 + min 4096 (d.length - i * 4096) - i * 4096) =
      (d.drop (i * 4096)).take 4096 := by
    rw [List.take_eq_take]
    rw [hdroplen]
    omega
  rw [htake]
  have hlen : ((d.drop (i * 4096)).take 4096).length = min 4096 (d.length - i * 4096) := by
    rw [List.length_take, hdroplen]
  rw [hlen]

end XilinxJTAG

/-- C4: for every payload, `programSRAM` run against mocked BYPASS
readbacks 0x21 (after JPROGRAM: INIT = bit 0 set, so a single poll) and
0x20 (after JSTART: DONE = bit 5 set) issues exactly the claimed
operation sequence — reset, JPROGRAM, one BYPASS poll, 120000 clocks in
IDLE, CFG_IN, ceil(len/4096) chunk shifts of the bit-reversed payload
with only the last ending in UPDATE_DR, IDLE, JSTART to UPDATE_IR, 2000
clocks, reset, final BYPASS read — and reports DONE = true. -/
theorem claim_C4_programSRAM_sequence (payload : List Nat) :
    XilinxJTAG.programSRAM payload [0x21, 0x20] =
      (XilinxJTAG.expectedProgramTrace payload, true) := by
  unfold XilinxJTAG.programSRAM XilinxJTAG.expectedProgramTrace
  dsimp only
  have hpoll : XilinxJTAG.pollInit 100 [0x21, 0x20] =
      ([.shiftIROp XilinxJTAG.IR_BYPASS true XilinxJTAG.STATE_RUN_TEST_IDLE],
       true, [0x20]) := rfl
  rw [hpoll, XilinxJTAG.programChunks_eq]
  simp

namespace USBBlasterII

theorem edgeCountFuel_congr :
    ∀ f1 f2 (l : List Nat), l.length ≤ f1 → l.length ≤ f2 →
      edgeCountFuel f1 l = edgeCountFuel f2 l := by
  intro f1
  induction f1 with
  | zero =>
      intro f2 l h1 _
      have : l = [] := List.length_eq_zero.mp (Nat.le_zero.mp h1)
      subst this
      cases f2 <;> rfl
  | succ f ih =>
      intro f2 l h1 h2
      cases l with
      | nil => cases f2 <;> rfl
      | cons b rest =>
          cases f2 with
          | zero => simp at h2
          | succ g =>
              show edgeCountFuel (f + 1) (b :: rest) = edgeCountFuel (g + 1) (b :: rest)
              simp only [edgeCountFuel]
              by_cases hb : b &&& 0x80 ≠ 0
              · rw [if_pos hb, if_pos hb]
                have hd : (rest.drop (b &&& 0x3F)).length ≤ rest.length := by
                  rw [List.length_drop]; omega
                have hl : rest.length + 1 ≤ f + 1 := by simpa using h1
                have hg : rest.length + 1 ≤ g + 1 := by simpa using h2
                rw [ih g (rest.drop (b &&& 0x3F)) (by omega) (by omega)]
              · rw [if_neg hb, if_neg hb]
                have hl : rest.length + 1 ≤ f + 1 := by simpa using h1
                have hg : rest.length + 1 ≤ g + 1 := by simpa using h2
                rw [ih g rest (by omega) (by omega)]

theorem edgeCountFuel_eq (fuel : Nat) (l : List Nat) (h : l.length ≤ fuel) :
    edgeCountFuel fuel l = edgeCount l :=
  edgeCountFuel_congr fuel l.length l h (Nat.le_refl _)

theorem edgeCount_cons_bang (b : Nat) (rest : List Nat) (hb : b &&& 0x80 = 0) :
    edgeCount (b :: rest) = (if b &&& 1 ≠ 0 then 1 else 0) + edgeCount rest := by
  show edgeCountFuel (b :: rest).length (b :: rest) = _
  rw [List.length_cons]
  simp only [edgeCountFuel]
  rw [if_neg (not_not_intro hb)]
  rfl

theorem edgeCount_cons_block (b : Nat) (data rest : List Nat)
    (hb : b &&& 0x80 ≠ 0) (hd : data.length = b &&& 0x3F) :
    edgeCount (b :: (data ++ rest)) = 8 * (b &&& 0x3F) + edgeCount rest := by
  show edgeCountFuel (b :: (data ++ rest)).length (b :: (data ++ rest)) = _
  rw [List.length_cons]
  simp only [edgeCountFuel]
  rw [if_pos hb]
  rw [← hd, List.drop_left]
  rw [edgeCountFuel_eq _ rest (by simp)]

theorem edgeCount_bangpair (a c : Nat) (rest : List Nat)
    (ha80 : a &&& 0x80 = 0) (ha1 : a &&& 1 = 0)
    (hc80 : c &&& 0x80 = 0) (hc1 : c &&& 1 ≠ 0) :
    edgeCount (a :: c :: rest) = 1 + edgeCount rest := by
  rw [edgeCount_cons_bang a _ ha80, edgeCount_cons_bang c _ hc80,
    if_neg (not_not_intro ha1), if_pos hc1]
  omega

theorem blockCmd_facts (n : Nat) (h : n ≤ 63) :
    (0x80 ||| (n &&& 0x3F)) &&& 0x80 ≠ 0 ∧ (0x80 ||| (n &&& 0x3F)) &&& 0x3F = n := by
  have hfin : ∀ m : Fin 64,
      (0x80 ||| ((m : Nat) &&& 0x3F)) &&& 0x80 ≠ 0 ∧
      (0x80 ||| ((m : Nat) &&& 0x3F)) &&& 0x3F = (m : Nat) := by decide
  exact hfin ⟨n, by omega⟩

end USBBlasterII

namespace USBBlasterII

theorem rawPackets_edges (tdi : List Nat) :
    ∀ fuel startByte remaining, remaining ≤ fuel → ∀ rest,
      edgeCount (rawPackets tdi fuel startByte remaining ++ rest) =
        8 * remaining + edgeCount rest := by
  intro fuel
  induction fuel with
  | zero =>
      intro s r h rest
      have : r = 0 := Nat.le_zero.mp h
      subst this
      simp [rawPackets]
  | succ f ih =>
      intro s r h rest
      by_cases hr : r = 0
      · subst hr; simp [rawPackets]
      · show edgeCount (rawPackets tdi (f + 1) s r ++ rest) = _
        rw [rawPackets]
        rw [if_neg hr]
        have hn63 : min 63 r ≤ 63 := Nat.min_le_left _ _
        obtain ⟨hb, hm⟩ := blockCmd_facts (min 63 r) hn63
        rw [List.cons_append, List.append_assoc]
        rw [edgeCount_cons_block _ _ _ hb (by simp [hm])]
        rw [ih (s + min 63 r) (r - min 63 r) (by omega) rest]
        rw [hm]
        omega

theorem shiftBytesRawWire_edges (tdi : List Nat) (startByte numBytes : Nat)
    (rest : List Nat) :
    edgeCount (shiftBytesRawWire tdi startByte numBytes ++ rest) =
      8 * numBytes + edgeCount rest := by
  show edgeCount (0x2C :: (rawPackets tdi numBytes startByte numBytes ++ rest)) = _
  rw [edgeCount_cons_bang _ _ (by decide), if_neg (by decide)]
  rw [rawPackets_edges tdi numBytes startByte numBytes (Nat.le_refl _) rest]
  omega

theorem toggleClockCyclesWire_edges (cycles : Nat) (rest : List Nat) :
    edgeCount (toggleClockCyclesWire cycles ++ rest) =
      8 * ((cycles + 7) / 8) + edgeCount rest := by
  by_cases hc : cycles = 0
  · subst hc; simp [toggleClockCyclesWire]
  · show edgeCount (toggleClockCyclesWire cycles ++ rest) = _
    rw [toggleClockCyclesWire, if_neg hc]
    rw [List.cons_append]
    rw [edgeCount_cons_bang _ _ (by decide), if_neg (by decide)]
    rw [shiftBytesRawWire_edges]
    omega

theorem bytewisePackets_edges (tdiBits : List Nat) (startBit bitCount : Nat) :
    ∀ fuel byteOffset remaining, remaining ≤ fuel → ∀ rest,
      edgeCount (bytewisePackets tdiBits startBit bitCount fuel byteOffset remaining ++
        rest) = 8 * remaining + edgeCount rest := by
  intro fuel
  induction fuel with
  | zero =>
      intro o r h rest
      have : r = 0 := Nat.le_zero.mp h
      subst this
      simp [bytewisePackets]
  | succ f ih =>
      intro o r h rest
      by_cases hr : r = 0
      · subst hr; simp [bytewisePackets]
      · show edgeCount (bytewisePackets tdiBits startBit bitCount (f + 1) o r ++ rest) = _
        rw [bytewisePackets]
        rw [if_neg hr]
        have hn63 : min 63 r ≤ 63 := Nat.min_le_left _ _
        obtain ⟨hb, hm⟩ := blockCmd_facts (min 63 r) hn63
        rw [List.cons_append, List.append_assoc]
        rw [edgeCount_cons_block _ _ _ hb (by simp [hm])]
        rw [ih (o + min 63 r) (r - min 63 r) (by omega) rest]
        rw [hm]
        omega

theorem shiftBytewiseWire_edges (tdiBits : List Nat) (startBit bitCount : Nat)
    (rest : List Nat) :
    edgeCount (shiftBytewiseWire tdiBits startBit bitCount ++ rest) =
      8 * ((bitCount + 7) / 8) + edgeCount rest := by
  exact bytewisePackets_edges tdiBits startBit bitCount _ 0 _ (Nat.le_refl _) rest

end USBBlasterII

namespace USBBlasterII

/-- A bit-bang setup/clock byte pair clocks exactly one rising edge, for
the TDI/TMS/read-enable bit combinations the adapter produces. -/
theorem edgeCount_bb_pair (t m c : Nat) (rest : List Nat)
    (ht : t = 0 ∨ t = 0x10) (hm : m = 0 ∨ m = 0x02) (hc : c = 0 ∨ c = 0x40) :
    edgeCount ((0x2C ||| t ||| m) :: ((0x2C ||| t ||| m) ||| 1 ||| c) :: rest) =
      1 + edgeCount rest := by
  rcases ht with h | h <;> rcases hm with h' | h' <;> rcases hc with h'' | h'' <;>
    subst h <;> subst h' <;> subst h'' <;>
      exact edgeCount_bangpair _ _ rest (by decide) (by decide) (by decide) (by decide)

theorem shiftBitBangWire_edges (tdiBits tmsBits : List Nat) (startIndex : Nat)
    (cap : Bool) :
    ∀ bitCount rest,
      edgeCount (shiftBitBangWire tdiBits tmsBits startIndex bitCount cap ++ rest) =
        bitCount + edgeCount rest := by
  intro bitCount
  induction bitCount with
  | zero => intro rest; simp [shiftBitBangWire]
  | succ k ih =>
      intro rest
      have hsplit : shiftBitBangWire tdiBits tmsBits startIndex (k + 1) cap =
          shiftBitBangWire tdiBits tmsBits startIndex k cap ++
            (let tdi := if tdiBits.getD (startIndex + k) 0 ≠ 0 then 0x10 else 0
             let tms := if tmsBits.getD (startIndex + k) 0 ≠ 0 then 0x02 else 0
             let base := 0x2C ||| tdi ||| tms
             [base, base ||| 1 ||| (if cap then 0x40 else 0)]) := by
        unfold shiftBitBangWire
        rw [List.range_succ, List.flatMap_append]
        simp
      rw [hsplit, List.append_assoc, ih]
      dsimp only
      rw [List.cons_append, List.cons_append, List.nil_append]
      rw [edgeCount_bb_pair _ _ _ rest (by split <;> simp) (by split <;> simp)
        (by cases cap <;> simp)]
      omega

end USBBlasterII

namespace USBBlasterII

theorem shiftBitsGo_edges (tdiBits tmsBits : List Nat) (bitLength : Nat)
    (cap : Bool) :
    ∀ fuel bitIndex rest, bitLength - bitIndex ≤ fuel →
      edgeCount (shiftBitsGo tdiBits tmsBits bitLength cap fuel bitIndex ++ rest) =
        (bitLength - bitIndex) + edgeCount rest := by
  intro fuel
  induction fuel with
  | zero =>
      intro bi rest h
      have : bitLength - bi = 0 := Nat.le_zero.mp h
      rw [this]
      simp [shiftBitsGo]
  | succ f ih =>
      intro bi rest h
      show edgeCount (shiftBitsGo tdiBits tmsBits bitLength cap (f + 1) bi ++ rest) = _
      rw [shiftBitsGo]
      by_cases hlt : bi < bitLength
      · rw [if_pos hlt]
        by_cases hcond : (!cap && canUseByteshiftMode tmsBits bi bitLength) = true ∧
            bitLength - bi ≥ 16
        · rw [if_pos hcond]
          dsimp only
          rw [List.append_assoc, shiftBytewiseWire_edges,
            ih (bi + (bitLength - bi) / 8 * 8) rest (by omega)]
          omega
        · rw [if_neg hcond]
          dsimp only
          rw [List.append_assoc, shiftBitBangWire_edges,
            ih (bi + min 64 (bitLength - bi)) rest (by omega)]
          omega
      · rw [if_neg hlt]
        rw [List.nil_append]
        omega

theorem shiftBitsWire_edges (tdiBits tmsBits : List Nat) (bitLength : Nat)
    (cap : Bool) (rest : List Nat) :
    edgeCount (shiftBitsWire tdiBits tmsBits bitLength cap ++ rest) =
      bitLength + edgeCount rest := by
  have := shiftBitsGo_edges tdiBits tmsBits bitLength cap bitLength 0 rest (by omega)
  simpa [shiftBitsWire] using this

end USBBlasterII

namespace USBBlasterII

theorem edgeCount_tdi_pair (t : Nat) (rest : List Nat) (ht : t = 0 ∨ t = 1) :
    edgeCount ((0x2C ||| (t <<< 4)) :: ((0x2C ||| (t <<< 4)) ||| 1) :: rest) =
      1 + edgeCount rest := by
  rcases ht with h | h <;> subst h <;>
    exact edgeCount_bangpair _ _ rest (by decide) (by decide) (by decide) (by decide)

theorem edgeCount_tms_pair (t : Nat) (rest : List Nat) (ht : t = 0 ∨ t = 1) :
    edgeCount ((0x2C ||| (t <<< 4) ||| 0x02) :: (0x2C ||| (t <<< 4) ||| 0x03) :: rest) =
      1 + edgeCount rest := by
  rcases ht with h | h <;> subst h <;>
    exact edgeCount_bangpair _ _ rest (by decide) (by decide) (by decide) (by decide)

theorem midPairs_edges (tdiBytes : List Nat) (lbs : Nat) :
    ∀ k rest,
      edgeCount (((List.range k).flatMap (fun i =>
        [0x2C ||| ((tdiBytes.getD (lbs + i / 8) 0 / 2 ^ (i % 8) % 2) <<< 4),
         0x2C ||| ((tdiBytes.getD (lbs + i / 8) 0 / 2 ^ (i % 8) % 2) <<< 4) ||| 1])) ++
          rest) = k + edgeCount rest := by
  intro k
  induction k with
  | zero => intro rest; simp
  | succ j ih =>
      intro rest
      rw [List.range_succ, List.flatMap_append, List.append_assoc, ih]
      simp only [List.flatMap_cons, List.flatMap_nil, List.append_nil,
        List.cons_append, List.nil_append]
      rw [edgeCount_tdi_pair _ rest (Nat.mod_two_eq_zero_or_one _)]
      omega

theorem shiftBytesWire_edges (tdiBytes : List Nat) (bitLength : Nat)
    (h : 1 ≤ bitLength) (rest : List Nat) :
    edgeCount (shiftBytesWire tdiBytes bitLength ++ rest) =
      bitLength + edgeCount rest := by
  unfold shiftBytesWire
  dsimp only
  by_cases h1 : (bitLength + 7) / 8 > 1
  · simp only [if_pos h1]
    have h2 : (bitLength + 7) / 8 - 1 > 0 := by omega
    simp only [if_pos h2, if_neg (by omega : ¬bitLength = 0)]
    by_cases h3 : bitLength - ((bitLength + 7) / 8 - 1) * 8 > 1
    · simp only [if_pos h3]
      rw [List.append_assoc, List.append_assoc, shiftBytesRawWire_edges,
        midPairs_edges, List.cons_append, List.cons_append, List.nil_append,
        edgeCount_tms_pair _ rest (Nat.mod_two_eq_zero_or_one _)]
      omega
    · simp only [if_neg h3]
      rw [List.append_assoc, List.append_assoc, shiftBytesRawWire_edges,
        List.nil_append, List.cons_append, List.cons_append, List.nil_append,
        edgeCount_tms_pair _ rest (Nat.mod_two_eq_zero_or_one _)]
      omega
  · simp only [if_neg h1]
    simp only [if_neg (by omega : ¬(0 : Nat) > 0), if_neg (by omega : ¬bitLength = 0)]
    by_cases h3 : bitLength - 0 * 8 > 1
    · simp only [if_pos h3]
      rw [List.nil_append, List.append_assoc, midPairs_edges, List.cons_append,
        List.cons_append, List.nil_append,
        edgeCount_tms_pair _ rest (Nat.mod_two_eq_zero_or_one _)]
      omega
    · simp only [if_neg h3]
      rw [List.nil_append, List.nil_append, List.cons_append, List.cons_append,
        List.nil_append, edgeCount_tms_pair _ rest (Nat.mod_two_eq_zero_or_one _)]
      omega

end USBBlasterII


/-- C7 counterexample: `toggleClockCycles(1)` encodes 8 TCK edges (one
byte-shift byte of zeros), not 1 — the cycle count is padded up to whole
bytes, so conservation fails for counts that are not multiples of 8. -/
theorem claim_C7_counterexample :
    USBBlasterII.edgeCount (USBBlasterII.callWire (.clockCall 1)) ≠
      USBBlasterII.callRequest (.clockCall 1) := by
  decide

/-- C7 amended: over any sequence of adapter calls, the wire stream
encodes exactly `n_bits` TCK edges per `shiftBits` call, `n_bits` per
`shiftBytes` call with `n_bits ≥ 1`, and `8·ceil(cycles/8)` per
`toggleClockCycles` call (equal to `cycles` only when `8 ∣ cycles`). -/
theorem claim_C7_edge_conservation (calls : List USBBlasterII.BlasterCall)
    (h : ∀ c ∈ calls, USBBlasterII.bytesCallPositive c = true) :
    USBBlasterII.edgeCount (calls.flatMap USBBlasterII.callWire) =
      (calls.map USBBlasterII.amendedRequest).sum := by
  induction calls with
  | nil => rfl
  | cons c cs ih =>
      rw [List.flatMap_cons, List.map_cons, List.sum_cons]
      have hcs : ∀ x ∈ cs, USBBlasterII.bytesCallPositive x = true :=
        fun x hx => h x (List.mem_cons_of_mem _ hx)
      rw [← ih hcs]
      cases c with
      | bitsCall tdiBits tmsBits bitLength cap =>
          exact USBBlasterII.shiftBitsWire_edges tdiBits tmsBits bitLength cap _
      | bytesCall tdiBytes bitLength =>
          have hpos : 1 ≤ bitLength := by
            have := h _ (List.mem_cons_self _ cs)
            simpa [USBBlasterII.bytesCallPositive] using this
          exact USBBlasterII.shiftBytesWire_edges tdiBytes bitLength hpos _
      | clockCall cycles =>
          exact USBBlasterII.toggleClockCyclesWire_edges cycles _

/-- Witness for C7 amended on a concrete call sequence: 2 + 24 + 8·2
edges for a 2-bit bit-bang shift, a 24-bit byte shift and 9 clock
cycles. -/
theorem claim_C7_witness :
    USBBlasterII.edgeCount
        ([USBBlasterII.BlasterCall.bitsCall [1] [0, 1] 2 false,
          USBBlasterII.BlasterCall.bytesCall [0xAA, 0x55, 0xFF] 24,
          USBBlasterII.BlasterCall.clockCall 9].flatMap USBBlasterII.callWire) =
      ([USBBlasterII.BlasterCall.bitsCall [1] [0, 1] 2 false,
        USBBlasterII.BlasterCall.bytesCall [0xAA, 0x55, 0xFF] 24,
        USBBlasterII.BlasterCall.clockCall 9].map
          USBBlasterII.amendedRequest).sum :=
  claim_C7_edge_conservation _ (by decide)
